import Mathlib

/-!
# Verification of the LUNA SerDes-PHY gateware against its specification

Shallow embedding of the `luna/gateware/interface/serdes_phy` modules
(`serdes.py`, `lfps.py`, `compat.py`).  Every synchronous module is modelled
as a pure per-tick transition function `(state, inputs) → state` together
with combinational output functions, following the nMigen semantics of the
source (last-added assignment wins inside a clock domain; undriven
combinational signals read as their reset value).
-/

namespace Luna

/-! ## Data model

A symbol is one payload byte plus one control bit.  A 32-bit word carries
four symbols plus `first`/`last` framing bits (`stream.Endpoint
([("data", 32), ("ctrl", 4)])` in the source).  Byte `i` of `data`
corresponds to bit `i` of `ctrl`.
-/

/-- One symbol: a data byte together with its control bit. -/
structure Sym where
  data : Nat
  ctrl : Bool
deriving DecidableEq, Repr

/-- A 32-bit/4-bit stream word: four symbols plus `first`/`last` framing. -/
structure Word where
  s0 : Sym
  s1 : Sym
  s2 : Sym
  s3 : Sym
  first : Bool
  last  : Bool
deriving DecidableEq, Repr

/-- The symbols of a word, lane 0 first (lane `i` = `data[8i:8(i+1)]`). -/
def Word.lanes (w : Word) : List Sym := [w.s0, w.s1, w.s2, w.s3]

/-- SKP K-symbol value (K28.1, clock-compensation filler), from
`common.SKP`: a K-code `K(x, y)` has value `x + 32·y`. -/
def SKP : Nat := 28 + 32 * 1

/-- COM K-symbol value (K28.5, alignment comma), from `common.COM`. -/
def COM : Nat := 28 + 32 * 5

/-- K28.4 sentinel substituted for invalid 8b/10b decodes (`K(28, 4)`). -/
def K28_4 : Nat := 28 + 32 * 4

/-! ## RX Error Substitution (`serdes.py`, `RXErrorSubstitution`)

Purely combinational: the sink is connected to the source, then each of the
two lanes is overridden with `(K28.4, ctrl=1)` whenever the corresponding
decoder's `invalid` flag is set.
-/

/-- One lane of `RXErrorSubstitution`: pass through, unless the decoder
reports an invalid symbol, in which case the control bit is forced to 1 and
the data byte replaced by K28.4. -/
def errSubstLane (s : Sym) (invalid : Bool) : Sym :=
  if invalid then ⟨K28_4, true⟩ else s

/-- `RXErrorSubstitution` on a full 16-bit/2-bit word (two lanes). -/
def errSubst (s0 s1 : Sym) (invalid0 invalid1 : Bool) : Sym × Sym :=
  (errSubstLane s0 invalid0, errSubstLane s1 invalid1)

/-! ## Construction-time validation (`lfps.py`)

`LFPSBurstGenerator.__init__` asserts that the target LFPS clock frequency
lies within `[_LFPS_CLK_FREQ_MIN, _LFPS_CLK_FREQ_MAX] = [1/100ns, 1/20ns]`;
`LFPSTiming.__init__` asserts that `t_min` and `t_max` are provided.
Python `assert` failures are modelled as `none`.
-/

/-- `_LFPS_CLK_FREQ_MIN = 1/100e-9` Hz, as an exact rational. -/
def LFPS_CLK_FREQ_MIN : ℚ := 10000000

/-- `_LFPS_CLK_FREQ_MAX = 1/20e-9` Hz, as an exact rational. -/
def LFPS_CLK_FREQ_MAX : ℚ := 50000000

/-- Result of a successful `LFPSBurstGenerator` construction: the stored
clock and LFPS frequencies. -/
structure BurstGenConfig where
  clockFrequency : ℚ
  lfpsClkFreq    : ℚ
deriving DecidableEq

/-- `LFPSBurstGenerator.__init__`: rejects (via `assert`) any LFPS clock
frequency outside the fixed band. -/
def mkLFPSBurstGenerator (sysClkFreq lfpsClkFreq : ℚ) : Option BurstGenConfig :=
  if LFPS_CLK_FREQ_MIN ≤ lfpsClkFreq ∧ lfpsClkFreq ≤ LFPS_CLK_FREQ_MAX then
    some ⟨sysClkFreq, lfpsClkFreq⟩
  else
    none

/-- Result of a successful `LFPSTiming` construction. -/
structure LFPSTiming where
  t_typ : Option ℚ
  t_min : ℚ
  t_max : ℚ
deriving DecidableEq

/-- `LFPSTiming.__init__`: `t_min` and `t_max` must be provided
(`assert t_min is not None; assert t_max is not None`). -/
def mkLFPSTiming (t_typ t_min t_max : Option ℚ) : Option LFPSTiming :=
  match t_min, t_max with
  | some tmin, some tmax => some ⟨t_typ, tmin, tmax⟩
  | _, _ => none

/-! ## LFPS Detector (`lfps.py`, `LFPSDetector.elaborate`)

Two-state FSM over a per-tick synchronized `idle` input.  nMigen
last-assignment-wins semantics: in `TBURST` the default scheduled value
`count - 1` is overridden (in both sub-branches) whenever `count == 0`, so
the decrement is only effective at `count ≠ 0`; likewise in `TREPEAT` the
decrement stands only when `count ≠ 0 ∧ idle`.  The reload constants are
Python-integer elaboration-time expressions of the pattern's burst/repeat
cycle counts. -/

inductive DetFsm where
  | tburst
  | trepeat
deriving DecidableEq, Repr

/-- Registered state of `LFPSDetector`: FSM state, `count`, `found`. -/
structure DetState where
  fsm   : DetFsm
  count : Nat
  found : Bool
deriving DecidableEq, Repr

/-- One `ss`-domain tick of `LFPSDetector`, translated from the source
FSM; `bc`/`rc` are `_burst_cycles`/`_repeat_cycles`.  Returns the next
state together with the combinational `detect` output of this tick. -/
def detectorStep (bc rc : Nat) (s : DetState) (idle : Bool) : DetState × Bool :=
  match s.fsm with
  | .tburst =>
    -- `detect` pulses and `found` clears when `found ∧ ¬idle`, regardless
    -- of the counter branch taken.
    let detect := s.found && !idle
    let found' := if s.found && !idle then false else s.found
    if s.count = 0 then
      if idle then
        (⟨.trepeat, rc - 2 * bc - 1, found'⟩, detect)
      else
        (⟨.tburst, bc - 1, found'⟩, detect)
    else
      (⟨.tburst, s.count - 1, found'⟩, detect)
  | .trepeat =>
    if s.count = 0 || !idle then
      (⟨.tburst, bc - 1, s.count = 0⟩, false)
    else
      (⟨.trepeat, s.count - 1, s.found⟩, false)

/-- Reference per-tick algorithm taken literally from the claim's words:
in Await-Burst, *while counting down* (i.e. on any tick), observing idle
reloads the counter to `repeat − 2·burst − 1` and moves to Await-Repeat,
while reaching zero without observing idle reloads to `burst − 1` and
stays; the detect/found handling and the Await-Repeat state are as the
claim states them. -/
def detectorRefLiteralStep (bc rc : Nat) (s : DetState) (idle : Bool) :
    DetState × Bool :=
  match s.fsm with
  | .tburst =>
    let detect := s.found && !idle
    let found' := if s.found && !idle then false else s.found
    if idle then
      (⟨.trepeat, rc - 2 * bc - 1, found'⟩, detect)
    else if s.count = 0 then
      (⟨.tburst, bc - 1, found'⟩, detect)
    else
      (⟨.tburst, s.count - 1, found'⟩, detect)
  | .trepeat =>
    if s.count = 0 || !idle then
      (⟨.tburst, bc - 1, s.count = 0⟩, false)
    else
      (⟨.trepeat, s.count - 1, s.found⟩, false)

/-- Reference per-tick algorithm amended so that idle is only *observed*
(sampled) when the countdown reaches zero — "check once per bit period" —
which is the only change the code forces on the claim's reference
algorithm. -/
def detectorRefStep (bc rc : Nat) (s : DetState) (idle : Bool) :
    DetState × Bool :=
  match s.fsm with
  | .tburst =>
    let detect := s.found && !idle
    let found' := if s.found && !idle then false else s.found
    if s.count = 0 && idle then
      (⟨.trepeat, rc - 2 * bc - 1, found'⟩, detect)
    else if s.count = 0 then
      (⟨.tburst, bc - 1, found'⟩, detect)
    else
      (⟨.tburst, s.count - 1, found'⟩, detect)
  | .trepeat =>
    if s.count = 0 || !idle then
      (⟨.tburst, bc - 1, s.count = 0⟩, false)
    else
      (⟨.trepeat, s.count - 1, s.found⟩, false)

/-! ## LFPS Burst Generator (`lfps.py`, `LFPSBurstGenerator.elaborate`)

A free-running square-wave generator (period timer + toggle bit) plus a
two-state burst FSM.  `cycles_left_in_burst` is `Signal.like(self.length)`,
i.e. 32 bits wide, and is decremented *unconditionally* in the `BURST`
state, so it wraps modulo 2^32 on the tick where it is 0.  In `IDLE` the
FSM's `period_timer.eq(0)` assignment overrides the square-wave block's
scheduled value (last-added assignment wins). -/

/-- 32-bit wrapping decrement, as performed on a 32-bit `Signal`. -/
def dec32 (n : Nat) : Nat := (n + (2 ^ 32 - 1)) % 2 ^ 32

inductive BFsm where
  | bIdle
  | bBurst
deriving DecidableEq, Repr

/-- Registered state of `LFPSBurstGenerator`. -/
structure BurstState where
  fsm         : BFsm
  squareWave  : Bool
  periodTimer : Nat
  cyclesLeft  : Nat
deriving DecidableEq, Repr

/-- Reset state of `LFPSBurstGenerator`. -/
def burstInit : BurstState := ⟨.bIdle, false, 0, 0⟩

/-- One `ss` tick of `LFPSBurstGenerator`; `tm` is the elaboration-time
constant `timer_max = ceil(sys_clk_freq / (2·lfps_clk_freq)) − 1`.
Inputs: the `start` strobe and the requested `length` (a 32-bit signal). -/
def burstStep (tm : Nat) (s : BurstState) (start : Bool) (length : Nat) :
    BurstState :=
  -- Square-wave generator (module level, may be overridden by the FSM).
  let sq' := if s.periodTimer = 0 then !s.squareWave else s.squareWave
  let pt' := if s.periodTimer = 0 then tm - 1 else s.periodTimer - 1
  match s.fsm with
  | .bIdle =>
    -- IDLE overrides `period_timer := 0` and reloads `cycles_left := length`.
    ⟨if start then .bBurst else .bIdle, sq', 0, length % 2 ^ 32⟩
  | .bBurst =>
    -- Unconditional decrement; exit to IDLE on the tick where it reads 0.
    ⟨if s.cyclesLeft = 0 then .bIdle else .bBurst, sq', pt', dec32 s.cyclesLeft⟩

/-- Combinational `done` output: asserted in `IDLE`. -/
def burstDone (s : BurstState) : Bool := s.fsm = .bIdle

/-- Combinational `tx_idle` output (reset value 1, driven 0 in `BURST`). -/
def burstTxIdle (s : BurstState) : Bool := s.fsm ≠ .bBurst

/-- Combinational `tx_pattern` output: `Repl(square_wave, 20)` while
bursting, 0 (undriven) otherwise. -/
def burstTxPattern (s : BurstState) : Nat :=
  if s.fsm = .bBurst then (if s.squareWave then 2 ^ 20 - 1 else 0) else 0

/-- The burst generator's state trace for the C5 stimulus: a one-tick
`start` pulse at tick 0 with `length = L` held. -/
def burstTrace (tm L : Nat) : Nat → BurstState
  | 0 => burstInit
  | k + 1 => burstStep tm (burstTrace tm L k) (k == 0) L

/-! ## LFPS Pattern Generator (`lfps.py`, `LFPSGenerator.elaborate`)

Composes the burst generator with a repeat-interval controller.
`burst_repeat_count` is a 32-bit signal decremented unconditionally in
`BURST_AND_WAIT`, so it wraps modulo 2^32 on the tick where it is 0;
`count` (the completed-cycle counter) is 16 bits. -/

inductive GenFsm where
  | gIdle
  | gBurstWait
deriving DecidableEq, Repr

/-- Registered state of `LFPSGenerator` (controller registers plus the
embedded burst generator's state; `bgStart`/`bgLen` are the registered
`burst_generator.start`/`length` drive signals). -/
structure GenState where
  fsm         : GenFsm
  count       : Nat
  repeatCount : Nat
  bgStart     : Bool
  bgLen       : Nat
  bg          : BurstState
deriving DecidableEq, Repr

/-- One `ss` tick of `LFPSGenerator`; `tm` is the burst generator's timer
constant, `fullBurst`/`fullRepeat` the elaboration-time constants
`int(sys_clk_freq · t_typ)` for the pattern's burst and repeat periods. -/
def genStep (tm fullBurst fullRepeat : Nat) (s : GenState) (generate : Bool) :
    GenState :=
  let bg' := burstStep tm s.bg s.bgStart s.bgLen
  match s.fsm with
  | .gIdle =>
    if generate then
      ⟨.gBurstWait, 0, fullRepeat % 2 ^ 32, true, fullBurst % 2 ^ 32, bg'⟩
    else
      ⟨.gIdle, 0, s.repeatCount, s.bgStart, s.bgLen, bg'⟩
  | .gBurstWait =>
    ⟨if s.repeatCount = 0 then .gIdle else .gBurstWait,
     if s.repeatCount = 0 then (s.count + 1) % 2 ^ 16 else s.count,
     dec32 s.repeatCount,
     false, s.bgLen, bg'⟩

/-! ## WaitTimer (`compat.py`)

`count` resets (and reloads) to `t`; while `wait` is asserted it counts
down, guarded by `If(~self.done, ...)` so it holds at 0; while `wait` is
deasserted it reloads to `t`.  `done` is the combinational `count == 0`. -/

/-- One sync tick of `WaitTimer`'s counter. -/
def waitTimerStep (t : Nat) (count : Nat) (wait : Bool) : Nat :=
  if wait then (if count = 0 then count else count - 1) else t

/-- `WaitTimer.done`: combinational `count == 0`. -/
def waitTimerDone (count : Nat) : Bool := count = 0

/-! ## Receiver Lock Sequencer (`serdes.py`, `SerdesRXInit`)

A five-state FSM over synchronized snapshots of the four transceiver
status bits, together with a `WaitTimer(int(4e5))`.  The FSM drives the
timer's `wait` input combinationally (undriven in IDLE/RESET-ALL/READY,
forced low on the completion tick of RESET-PCS, held high in CHECK-LSM).
The model's inputs are the post-`FFSynchronizer` values. -/

/-- The `WaitTimer(int(4e5))` duration. -/
def T400 : Nat := 400000

inductive InitFsm where
  | idle
  | resetAll
  | resetPcs
  | checkLsm
  | ready
deriving DecidableEq, Repr

/-- Registered state of `SerdesRXInit`: FSM state, the `_rx_lsm_seen`
latch, and the embedded `WaitTimer` count. -/
structure InitState where
  fsm     : InitFsm
  lsmSeen : Bool
  timer   : Nat
deriving DecidableEq, Repr

/-- Synchronized per-tick status inputs of `SerdesRXInit`. -/
structure InitIn where
  txLol : Bool
  rxLol : Bool
  rxLos : Bool
  rxLsm : Bool
deriving DecidableEq, Repr

/-- Reset state: FSM in IDLE, latch clear, timer at its reset value. -/
def serdesInitReset : InitState := ⟨.idle, false, T400⟩

/-- One sync tick of `SerdesRXInit` (FSM plus its `WaitTimer`). -/
def serdesInitStep (s : InitState) (i : InitIn) : InitState :=
  match s.fsm with
  | .idle =>
    ⟨if !i.txLol then .resetAll else .idle, s.lsmSeen,
     waitTimerStep T400 s.timer false⟩
  | .resetAll =>
    ⟨.resetPcs, s.lsmSeen, waitTimerStep T400 s.timer false⟩
  | .resetPcs =>
    -- `timer.wait = ~rx_lol & ~rx_los`, overridden to 0 on the done tick.
    let done := s.timer = 0
    let wait := if done then false else (!i.rxLol && !i.rxLos)
    ⟨if done then .checkLsm else .resetPcs,
     if done then false else s.lsmSeen,
     waitTimerStep T400 s.timer wait⟩
  | .checkLsm =>
    let done := s.timer = 0
    ⟨if done then (if i.rxLsm then .ready else .idle)
      else if s.lsmSeen && !i.rxLsm then .idle
      else .checkLsm,
     s.lsmSeen || i.rxLsm,
     waitTimerStep T400 s.timer true⟩
  | .ready =>
    ⟨if i.txLol || i.rxLol || i.rxLos then .idle else .ready, s.lsmSeen,
     waitTimerStep T400 s.timer false⟩

/-- Iterate the sequencer for `n` ticks under a constant input. -/
def initIter (i : InitIn) : Nat → InitState → InitState
  | 0, s => s
  | n + 1, s => initIter i n (serdesInitStep s i)

/-- Run the sequencer over a finite list of per-tick inputs. -/
def listRun (s : InitState) (is : List InitIn) : InitState :=
  is.foldl serdesInitStep s

/-- The C3 stimulus: TX locked, RX lock and signal present, RX
link-state-machine indicator asserted. -/
def goodIn : InitIn := ⟨false, false, false, true⟩

/-- A recovery stimulus: TX loss-of-lock asserted, RX clean, LSM low. -/
def recIn : InitIn := ⟨true, false, false, false⟩

/-- The RESET-PCS timer's evolution viewed on its own: `some c'` when the
sequencer is still in RESET-PCS with timer value `c'` after the given
inputs, `none` once it has left for CHECK-LSM (the timer completed). -/
def pcsRun : Nat → List InitIn → Option Nat
  | c, [] => some c
  | c, i :: is =>
    if c = 0 then none
    else if i.rxLol || i.rxLos then pcsRun T400 is
    else pcsRun (c - 1) is

/-! ## RX Clock-Compensation Remover (`serdes.py`, `RXSKPRemover`)

Strips SKP symbols lane-wise, repacks the survivors into a 64-bit/8-bit
shift register (`sr_data`/`sr_ctrl`, modelled as eight symbols with index
0 = low byte `sr_data[0:8]`) with a 4-bit fill counter `sr_bytes`.  The
held bytes occupy the top `sr_bytes` positions of the register, the
oldest at index `8 - sr_bytes`. -/

/-- Registered state of `RXSKPRemover`. -/
structure RemState where
  sr    : List Sym
  bytes : Nat
deriving DecidableEq, Repr

/-- Reset state of `RXSKPRemover`: empty register. -/
def remInit : RemState := ⟨List.replicate 8 ⟨0, false⟩, 0⟩

/-- Lane-wise SKP detection: `skp[i] = ctrl[i] & (data[i] == SKP)`. -/
def isSkpSym (s : Sym) : Bool := s.ctrl && (s.data == SKP)

/-- The valid Data/Ctrl fragment of an input word: the lanes whose `skp`
bit is clear, packed in lane order (the `Case(skp, ...)` selector). -/
def frag (w : Word) : List Sym := w.lanes.filter (fun s => !isSkpSym s)

/-- `sink.ready`: asserted while at most 7 bytes are held. -/
def remSinkReady (s : RemState) : Bool := s.bytes ≤ 7

/-- `source.valid`: a full word is offered once at least 4 bytes are held. -/
def remSourceValid (s : RemState) : Bool := 4 ≤ s.bytes

/-- The offered output symbols: `sr[8·(8−sr_bytes) : 8·(8−sr_bytes+4)]`,
the oldest four held symbols, for `sr_bytes` in 4–7 (the output `Case`
has arms only for 4–7; otherwise the bus reads zero). -/
def remOut (s : RemState) : List Sym :=
  if 4 ≤ s.bytes ∧ s.bytes ≤ 7 then (s.sr.drop (8 - s.bytes)).take 4
  else List.replicate 4 ⟨0, false⟩

/-- Pack four symbols into an output word; the remover never drives
`source.first`/`source.last`, so they read as 0. -/
def mkWord (l : List Sym) : Word :=
  ⟨l.getD 0 ⟨0, false⟩, l.getD 1 ⟨0, false⟩, l.getD 2 ⟨0, false⟩,
   l.getD 3 ⟨0, false⟩, false, false⟩

/-- One sync tick of `RXSKPRemover`: `inp` is the sink word when
`sink.valid` is high, `outReady` is `source.ready`.  Returns the next
state and the word transferred on the source this tick, if any.  On an
accepted input, `frag_bytes` symbols are shifted in (the `Case 0` arm
holds the register) and `sr_bytes` gains `frag_bytes`, losing 4 more if an
output transfer happens in the same tick; on an output-only tick
`sr_bytes` just drops by 4. -/
def remStep (s : RemState) (inp : Option Word) (outReady : Bool) :
    RemState × Option Word :=
  let out := remSourceValid s && outReady
  let emitted := if out then some (mkWord (remOut s)) else none
  match inp with
  | some w =>
    if remSinkReady s then
      let f := frag w
      let sr' := if f.length = 0 then s.sr else s.sr.drop f.length ++ f
      (⟨sr', s.bytes + f.length - (if out then 4 else 0)⟩, emitted)
    else
      (⟨s.sr, s.bytes - (if out then 4 else 0)⟩, emitted)
  | none =>
    (⟨s.sr, s.bytes - (if out then 4 else 0)⟩, emitted)

/-- Run the remover over a trace of (sink input, source ready) ticks. -/
def remRun (s : RemState) (trace : List (Option Word × Bool)) : RemState :=
  trace.foldl (fun s t => (remStep s t.1 t.2).1) s

/-- The number of symbols accepted into the register this tick. -/
def remAccepted (s : RemState) (inp : Option Word) : Nat :=
  match inp with
  | some w => if remSinkReady s then (frag w).length else 0
  | none => 0

/-- The symbols accepted into the register this tick. -/
def remAcceptedFrag (s : RemState) (inp : Option Word) : List Sym :=
  match inp with
  | some w => if remSinkReady s then frag w else []
  | none => []

/-- The queue of held symbols, oldest first. -/
def validQ (s : RemState) : List Sym := s.sr.drop (8 - s.bytes)

/-! ## TX Clock-Compensation Inserter (`serdes.py`, `TXSKPInserter`)

Queues one 2-SKP-Ordered-Set insertion request every 176 accepted words
(`data_count`, 8 bits), tracks pending requests in `skip_count` (16 bits),
and gates insertion on `skip_grant` (cleared on an accepted `first`, set on
an accepted `last`, reset value 1).  `skip_queue` is a registered one-tick
pulse.  While `skip_grant & (skip_count != 0)`, the source is driven with
a full word of SKP symbols and the sink is stalled; otherwise the sink is
connected straight through. -/

/-- Registered state of `TXSKPInserter`. -/
structure InsState where
  dataCount : Nat
  skipGrant : Bool
  skipQueue : Bool
  skipCount : Nat
deriving DecidableEq, Repr

/-- Reset state of `TXSKPInserter` (`skip_grant` resets to 1). -/
def insInit : InsState := ⟨0, true, false, 0⟩

/-- The SKP Ordered Set word driven during insertion: four SKP symbols
with all control bits set; `source.first`/`source.last` are not driven. -/
def skpWord : Word :=
  ⟨⟨SKP, true⟩, ⟨SKP, true⟩, ⟨SKP, true⟩, ⟨SKP, true⟩, false, false⟩

/-- The SKP-insertion condition `skip_grant & (skip_count != 0)`. -/
def insEmitsSkip (s : InsState) : Bool := s.skipGrant && (s.skipCount != 0)

/-- One sync tick of `TXSKPInserter`: `sink` is the offered word (if any)
and `srcReady` is `source.ready`.  Returns the next state and the word
transferred on the source this tick.  `skip_count` gains one on a queue
pulse without a dequeue and loses one (mod 2^16) on a dequeue without a
queue pulse; `data_count` wraps at 175 and raises the queue pulse;
`skip_grant` follows accepted `last`/`first` flags. -/
def insStep (s : InsState) (sink : Option Word) (srcReady : Bool) :
    InsState × Option Word :=
  if insEmitsSkip s then
    ⟨⟨s.dataCount, s.skipGrant, false,
      if srcReady then
        (if s.skipQueue then s.skipCount
         else (s.skipCount + (2 ^ 16 - 1)) % 2 ^ 16)
      else
        (if s.skipQueue then (s.skipCount + 1) % 2 ^ 16 else s.skipCount)⟩,
     if srcReady then some skpWord else none⟩
  else
    match sink with
    | some w =>
      if srcReady then
        ⟨⟨if s.dataCount = 175 then 0 else (s.dataCount + 1) % 2 ^ 8,
          if w.last then true else if w.first then false else s.skipGrant,
          s.dataCount = 175,
          if s.skipQueue then (s.skipCount + 1) % 2 ^ 16 else s.skipCount⟩,
         some w⟩
      else
        ⟨⟨s.dataCount, s.skipGrant, false,
          if s.skipQueue then (s.skipCount + 1) % 2 ^ 16 else s.skipCount⟩,
         none⟩
    | none =>
      ⟨⟨s.dataCount, s.skipGrant, false,
        if s.skipQueue then (s.skipCount + 1) % 2 ^ 16 else s.skipCount⟩,
       none⟩

/-- Feed a word list through the inserter with an always-ready consumer,
collecting the transferred output sequence; each pending word is offered
until accepted (the sink stalls during SKP insertion). -/
def insRun : InsState → List Word → List Word
  | _, [] => []
  | s, w :: ws =>
    if h : insEmitsSkip s = true then
      skpWord :: insRun (insStep s (some w) true).1 (w :: ws)
    else
      w :: insRun (insStep s (some w) true).1 ws
termination_by s ws =>
  (ws.length, 2 * s.skipCount + (if s.skipQueue then 1 else 0))
decreasing_by
  · apply Prod.Lex.right
    have hc : s.skipCount ≠ 0 := by
      have h' := h
      simp [insEmitsSkip] at h'
      exact h'.2
    simp [insStep, h]
    by_cases hq : s.skipQueue
    · simp [hq]
    · simp [hq]
      omega
  · apply Prod.Lex.left
    simp

/-- Whether a word carries no SKP symbol in any lane. -/
def wordHasNoSkp (w : Word) : Bool := w.lanes.all (fun s => !isSkpSym s)

/-- Packet-openness fold over a word stream: a `last` closes, else a
`first` opens, else the state is held. -/
def openAfter (o : Bool) (w : Word) : Bool :=
  if w.last then false else if w.first then true else o

/-- Feed a word list through the remover with an always-ready consumer,
one word per tick, collecting the transferred output words. -/
def remRunCollect : RemState → List Word → RemState × List Word
  | s, [] => (s, [])
  | s, w :: ws =>
    let r := remStep s (some w) true
    let rest := remRunCollect r.1 ws
    (rest.1, r.2.toList ++ rest.2)

/-- Two further ticks with an idle sink to drain the remover. -/
def remDrain (s : RemState) : List Word :=
  (remStep s none true).2.toList ++
    (remStep (remStep s none true).1 none true).2.toList

/-- Complete remover harness: feed all words, then drain. -/
def remProcess (ws : List Word) : List Word :=
  ((remRunCollect remInit ws).2) ++ remDrain (remRunCollect remInit ws).1

/-- The word (if any) still pending inside the remover. -/
def pend (s : RemState) : List Word :=
  if s.bytes = 4 then [mkWord (remOut s)] else []

/-- Example framed word (single-word packet) for concrete evaluations. -/
def exWordFramed : Word :=
  ⟨⟨0, false⟩, ⟨0, false⟩, ⟨0, false⟩, ⟨0, false⟩, true, true⟩

/-- Example unframed data word for concrete evaluations. -/
def exWordData : Word :=
  ⟨⟨1, false⟩, ⟨2, false⟩, ⟨3, false⟩, ⟨4, false⟩, false, false⟩

/-! ## RX Word Aligner (`serdes.py`, `RXWordAligner`)

A one-word lookahead buffer (`stream.Buffer`) plus alignment tracking.
`source.valid = sink.valid & buf.source.valid` and
`buf.source.ready = sink.valid & source.ready`, so an output transfer
needs the buffered word and a simultaneously offered input word.  The
emitted word is a 4-byte window of `Cat(buffered, current)` at byte
offset `alignment_d`. -/

/-- Registered state of `RXWordAligner`: the lookahead buffer's valid bit
and word register, and the registered alignment `alignment_d`.
The buffer register itself is `stream.Buffer`, whose source is not under
`src/`; it is modelled from the spec: a one-word lookahead pipeline
register that accepts whenever empty or simultaneously drained
(`sink.ready = ~valid | source.ready`), loading the offered word and its
valid bit when it accepts. -/
structure AlignState where
  bufValid : Bool
  bufWord  : Word
  alignD   : Nat
deriving DecidableEq, Repr

/-- Reset state of the aligner. -/
def alignInit : AlignState :=
  ⟨false, ⟨⟨0, false⟩, ⟨0, false⟩, ⟨0, false⟩, ⟨0, false⟩, false, false⟩, 0⟩

/-- Alignment-marker match on one lane: a control-flagged COM symbol
(`check_ctrl_only = False`, the `RXDatapath` instantiation). -/
def laneMatch (s : Sym) : Bool := s.ctrl && (s.data == COM)

/-- Whether any lane of a word carries a control bit (`ctrl != 0`). -/
def hasCtrl (w : Word) : Bool := w.lanes.any (·.ctrl)

/-- The combinational `alignment` selector: the lowest lane whose
control-flagged symbol matches COM (the `i = 0` statement is added last
and wins), defaulting to 0. -/
def alignSel (w : Word) : Nat :=
  if laneMatch w.s0 then 0
  else if laneMatch w.s1 then 1
  else if laneMatch w.s2 then 2
  else if laneMatch w.s3 then 3
  else 0

/-- The emitted word: bytes `alignment_d ..` of the buffered word
concatenated with the current sink word, sliced to one word; the aligner
does not drive `source.first`/`source.last`. -/
def alignOut (s : AlignState) (w : Word) : Word :=
  mkWord (((s.bufWord.lanes ++ w.lanes).drop s.alignD).take 4)

/-- One sync tick of `RXWordAligner` (with its lookahead buffer):
`inp` is the sink word when `sink.valid` is high, `srcReady` is
`source.ready`, `enable` the alignment enable.  Returns the next state
and the word transferred on the source this tick. -/
def alignStep (s : AlignState) (inp : Option Word) (srcReady enable : Bool) :
    AlignState × Option Word :=
  match inp with
  | some w =>
    let bufSinkReady := !s.bufValid || srcReady
    let emitted := if s.bufValid && srcReady then some (alignOut s w) else none
    let alignD' :=
      if bufSinkReady && enable && hasCtrl w && !hasCtrl s.bufWord then
        alignSel w
      else s.alignD
    (if bufSinkReady then ⟨true, w, alignD'⟩
     else ⟨s.bufValid, s.bufWord, alignD'⟩,
     emitted)
  | none => (s, none)

/-- Run the aligner over a trace of (sink input, source ready, enable)
ticks, counting accepted inputs and emitted outputs. -/
def alignRun : AlignState → List (Option Word × Bool × Bool) →
    AlignState × Nat × Nat
  | s, [] => (s, 0, 0)
  | s, (inp, r, e) :: ts =>
    let st := alignStep s inp r e
    let accept := inp.isSome && (!s.bufValid || (inp.isSome && r))
    let rest := alignRun st.1 ts
    (rest.1, (if accept then 1 else 0) + rest.2.1,
     (if st.2.isSome then 1 else 0) + rest.2.2)

end Luna

/-! # Theorems -/

open Luna

/-- **C8.** For every input word (two lanes here: the transceiver-facing
side is 16 data bits + 2 control bits) and every lane validity vector, the
RX Error Substitution sets an invalid lane's output control bit and
replaces its data byte with the fixed K28.4 sentinel, and passes every
valid lane through unchanged.  The model is a pure (stateless,
combinational) function. -/
theorem c8_error_substitution (s0 s1 : Sym) (invalid0 invalid1 : Bool) :
    ((errSubst s0 s1 invalid0 invalid1).1 =
      if invalid0 then ⟨K28_4, true⟩ else s0) ∧
    ((errSubst s0 s1 invalid0 invalid1).2 =
      if invalid1 then ⟨K28_4, true⟩ else s1) := by
  constructor <;> rfl

/-- **C7.** Constructing an LFPS Burst Generator succeeds exactly when the
target LFPS frequency lies inside the fixed band [1/100 ns, 1/20 ns]
(construction is a pure function: failure is immediate, before any
ticking); and an `LFPSTiming` template is accepted exactly when both its
minimum and maximum durations are present. -/
theorem c7_construction_validation :
    (∀ sysClkFreq lfpsClkFreq : ℚ,
      (mkLFPSBurstGenerator sysClkFreq lfpsClkFreq).isSome ↔
        (LFPS_CLK_FREQ_MIN ≤ lfpsClkFreq ∧ lfpsClkFreq ≤ LFPS_CLK_FREQ_MAX)) ∧
    (∀ t_typ t_min t_max : Option ℚ,
      (mkLFPSTiming t_typ t_min t_max).isSome ↔
        (t_min ≠ none ∧ t_max ≠ none)) := by
  constructor
  · intro sys f
    unfold mkLFPSBurstGenerator
    by_cases h : LFPS_CLK_FREQ_MIN ≤ f ∧ f ≤ LFPS_CLK_FREQ_MAX
    · simp [h]
    · simp [h]
  · intro t_typ t_min t_max
    cases t_min <;> cases t_max <;> simp [mkLFPSTiming]

/-- A 32-bit wrapping decrement is an exact decrement on 1 ≤ n < 2^32. -/
theorem dec32_eq_sub_one {n : Nat} (h1 : 1 ≤ n) (h2 : n < 2 ^ 32) :
    dec32 n = n - 1 := by
  unfold dec32
  have h : n + (2 ^ 32 - 1) = (n - 1) + 2 ^ 32 := by omega
  rw [h, Nat.add_mod_right]
  exact Nat.mod_eq_of_lt (by omega)

/-- At 0, the 32-bit wrapping decrement wraps to `2^32 − 1`. -/
theorem dec32_zero : dec32 0 = 2 ^ 32 - 1 := by decide

/-- While the requested burst is in progress: for every `j ≤ L`, at tick
`1 + j` of the C5 stimulus the burst generator is in `BURST` with
`cycles_left = L − j`. -/
theorem burstTrace_in_progress (tm L : Nat) (hL : L < 2 ^ 32) :
    ∀ j, j ≤ L → (burstTrace tm L (1 + j)).fsm = .bBurst ∧
      (burstTrace tm L (1 + j)).cyclesLeft = L - j := by
  intro j
  induction j with
  | zero =>
    intro _
    have h0 : burstTrace tm L (1 + 0) = burstStep tm burstInit true L := rfl
    rw [h0]
    refine ⟨rfl, ?_⟩
    show L % 2 ^ 32 = L - 0
    rw [Nat.mod_eq_of_lt hL, Nat.sub_zero]
  | succ j ih =>
    intro hj
    obtain ⟨hfsm, hcl⟩ := ih (Nat.le_of_succ_le hj)
    have hpos : 1 ≤ L - j := by omega
    have hlt : L - j < 2 ^ 32 := by omega
    have hstep : burstTrace tm L (1 + (j + 1)) =
        burstStep tm (burstTrace tm L (1 + j)) false L := by
      have hb : ((1 + j : Nat) == 0) = false := beq_eq_false_iff_ne.mpr (by omega)
      show burstStep tm (burstTrace tm L (1 + j)) ((1 + j) == 0) L = _
      rw [hb]
    rw [hstep]
    rcases s : burstTrace tm L (1 + j) with ⟨fsm, sq, pt, cl⟩
    rw [s] at hfsm hcl
    simp at hfsm hcl
    subst hfsm
    subst hcl
    have hne : L - j ≠ 0 := by omega
    refine ⟨by simp [burstStep, hne], ?_⟩
    show dec32 (L - j) = L - (j + 1)
    rw [dec32_eq_sub_one hpos hlt]
    omega

/-- **C5 (counterexample).** With `timer_max = 1` and requested burst
length `L = 1`, the claim demands `tx_idle = 0` for exactly one tick
(tick 1) after the start pulse, with `tx_idle = 1` and `done` asserted at
tick 2; but at tick 2 the generator is still bursting (`tx_idle = 0`,
`done` deasserted) — the burst actually lasts `L + 1` ticks. -/
theorem c5_burst_length_counterexample :
    burstTxIdle (burstTrace 1 1 2) = false ∧
      burstDone (burstTrace 1 1 2) = false := by
  decide

/-- **C5 (amended).** For every requested burst length `L ≥ 1` (held on
the 32-bit `length` input, so `L < 2^32`), after a one-tick start pulse at
tick 0 the generator drives `tx_idle = 0` — with `tx_pattern` mirroring
the internal square wave (all-ones or all-zeroes on the 20-bit pattern
bus) — for exactly `L + 1` consecutive ticks (ticks 1 through `L + 1`),
and then returns `tx_idle` to 1 and asserts `done` at tick `L + 2`;
before the start pulse (tick 0) it is idle and done. -/
theorem c5_burst_generator_timing (tm L : Nat) (h1 : 1 ≤ L)
    (h2 : L < 2 ^ 32) :
    (burstTxIdle (burstTrace tm L 0) = true ∧
     burstDone (burstTrace tm L 0) = true) ∧
    (∀ k, 1 ≤ k → k ≤ L + 1 →
      burstTxIdle (burstTrace tm L k) = false ∧
      burstTxPattern (burstTrace tm L k) =
        (if (burstTrace tm L k).squareWave then 2 ^ 20 - 1 else 0)) ∧
    (burstTxIdle (burstTrace tm L (L + 2)) = true ∧
     burstDone (burstTrace tm L (L + 2)) = true) := by
  refine ⟨⟨rfl, rfl⟩, ?_, ?_⟩
  · intro k hk1 hk2
    obtain ⟨j, rfl⟩ : ∃ j, k = 1 + j := ⟨k - 1, by omega⟩
    have hj : j ≤ L := by omega
    obtain ⟨hfsm, -⟩ := burstTrace_in_progress tm L h2 j hj
    constructor
    · simp [burstTxIdle, hfsm]
    · simp [burstTxPattern, hfsm]
  · obtain ⟨hfsm, hcl⟩ := burstTrace_in_progress tm L h2 L le_rfl
    have hstep : burstTrace tm L (L + 2) =
        burstStep tm (burstTrace tm L (1 + L)) false L := by
      have hb : ((L + 1 : Nat) == 0) = false := beq_eq_false_iff_ne.mpr (by omega)
      show burstStep tm (burstTrace tm L (L + 1)) ((L + 1) == 0) L = _
      rw [hb, show (L + 1) = 1 + L from by omega]
    rcases s : burstTrace tm L (1 + L) with ⟨fsm, sq, pt, cl⟩
    rw [s] at hfsm hcl
    simp at hfsm hcl
    subst hfsm
    have hcl0 : cl = 0 := by omega
    subst hcl0
    rw [hstep, s]
    constructor
    · simp [burstStep, burstTxIdle]
    · simp [burstStep, burstDone]

/-- **C5 (witness).** The amended timing theorem instantiated at
`timer_max = 1`, `L = 1`. -/
theorem c5_burst_generator_timing_witness :
    (1 ≤ 1 ∧ 1 < 2 ^ 32) ∧
    ((burstTxIdle (burstTrace 1 1 0) = true ∧
      burstDone (burstTrace 1 1 0) = true) ∧
     (∀ k, 1 ≤ k → k ≤ 1 + 1 →
       burstTxIdle (burstTrace 1 1 k) = false ∧
       burstTxPattern (burstTrace 1 1 k) =
         (if (burstTrace 1 1 k).squareWave then 2 ^ 20 - 1 else 0)) ∧
     (burstTxIdle (burstTrace 1 1 (1 + 2)) = true ∧
      burstDone (burstTrace 1 1 (1 + 2)) = true)) :=
  ⟨⟨by decide, by decide⟩, c5_burst_generator_timing 1 1 (by decide) (by decide)⟩

/-- **C6 (counterexample).** The burst generator's `cycles_left_in_burst`
counter wraps below zero: starting from reset with a one-tick start pulse
and requested length 1, after 3 ticks the counter reads `2^32 − 1`, far
above every value ever loaded into it (at most 1) — it was decremented at
zero instead of remaining clamped there. -/
theorem c6_counter_wrap_counterexample :
    (burstTrace 1 1 3).cyclesLeft = 2 ^ 32 - 1 ∧
      ¬ (burstTrace 1 1 3).cyclesLeft ≤ 1 := by
  decide

/-- **C6 (amended).** Counter discipline of the subsystem's countdown
counters: (1) the `WaitTimer` counter never exceeds `max(count, t)` after
a tick, and at zero it stays clamped at zero while waiting and reloads to
`t` otherwise; (2) the LFPS detector's counter never exceeds
`max(burst-cycles, repeat-cycles, previous value)` — it reloads at zero
rather than wrapping; but (3) the burst generator's cycles-left counter
and (4) the pattern generator's repeat countdown are decremented
unconditionally in their active state and wrap to `2^32 − 1` on the tick
where they read zero, leaving the active state on that same tick (the
wrapped value is only replaced when the owning FSM later reloads it). -/
theorem c6_counter_discipline :
    (∀ t count wait, waitTimerStep t count wait ≤ max count t ∧
        waitTimerStep t 0 wait = if wait then 0 else t) ∧
    (∀ bc rc s idle,
        (detectorStep bc rc s idle).1.count ≤ max (max bc rc) s.count) ∧
    (∀ tm sq pt start length,
        (burstStep tm ⟨.bBurst, sq, pt, 0⟩ start length).cyclesLeft =
          2 ^ 32 - 1 ∧
        (burstStep tm ⟨.bBurst, sq, pt, 0⟩ start length).fsm = .bIdle) ∧
    (∀ tm fb fr count bgStart bgLen bg g,
        (genStep tm fb fr ⟨.gBurstWait, count, 0, bgStart, bgLen, bg⟩
          g).repeatCount = 2 ^ 32 - 1 ∧
        (genStep tm fb fr ⟨.gBurstWait, count, 0, bgStart, bgLen, bg⟩
          g).fsm = .gIdle) := by
  refine ⟨?_, ?_, ?_, ?_⟩
  · intro t count wait
    constructor
    · cases wait <;> simp [waitTimerStep] <;> split_ifs <;> omega
    · cases wait <;> simp [waitTimerStep]
  · intro bc rc s idle
    rcases s with ⟨fsm, count, found⟩
    cases fsm <;> cases idle <;> simp [detectorStep] <;> split_ifs <;>
      simp <;> omega
  · intro tm sq pt start length
    exact ⟨dec32_zero, rfl⟩
  · intro tm fb fr count bgStart bgLen bg g
    exact ⟨dec32_zero, rfl⟩

/-- **C2 (counterexample).** The claim's reference algorithm, read
literally — in Await-Burst idle is acted upon *while counting down*, i.e.
on any tick — disagrees with the code: at burst duration 3, repeat
duration 10, state (Await-Burst, count = 5, found = false) with idle
observed, the code merely decrements to 4 and stays in Await-Burst, while
the literal reference moves to Await-Repeat. -/
theorem c2_detector_literal_counterexample :
    detectorStep 3 10 ⟨.tburst, 5, false⟩ true ≠
      detectorRefLiteralStep 3 10 ⟨.tburst, 5, false⟩ true := by
  decide

/-- **C2 (amended).** For every state and per-tick idle input, the LFPS
Detector's transition function equals the reference two-state algorithm
amended so that idle is observed only on the tick where the countdown
reaches zero: at that point idle reloads the counter to
(repeat − 2·burst − 1) and moves to Await-Repeat, while zero without idle
reloads to (burst − 1) and stays; in Await-Burst a set `found` flag with
idle false asserts `detect` for that tick and clears the flag; in
Await-Repeat, idle going false or the counter reaching zero sets `found`
to (counter == 0), reloads to (burst − 1) and returns to Await-Burst. -/
theorem c2_detector_matches_reference (bc rc : Nat) (s : DetState) (idle : Bool) :
    detectorStep bc rc s idle = detectorRefStep bc rc s idle := by
  rcases s with ⟨fsm, count, found⟩
  cases fsm <;> cases idle <;>
    simp [detectorStep, detectorRefStep] <;>
    by_cases h : count = 0 <;> simp [h]

/-! ### Lock sequencer helper lemmas -/

/-- Constant-input iteration splits over addition of tick counts. -/
theorem initIter_add (i : InitIn) (a b : Nat) (s : InitState) :
    initIter i (a + b) s = initIter i b (initIter i a s) := by
  induction a generalizing s with
  | zero =>
    rw [Nat.zero_add]
    rfl
  | succ a ih =>
    have h : a + 1 + b = (a + b) + 1 := by omega
    rw [h]
    show initIter i (a + b) (serdesInitStep s i) = _
    rw [ih]
    rfl

/-- RESET-PCS countdown: under any constant input with RX lock and signal
present, the sequencer spends exactly `c + 1` further ticks in RESET-PCS
(counting the completion tick) and enters CHECK-LSM with the latch cleared
and the timer reloaded. -/
theorem pcs_countdown (i : InitIn) (h1 : i.rxLol = false)
    (h2 : i.rxLos = false) :
    ∀ c seen, initIter i (c + 1) ⟨.resetPcs, seen, c⟩ =
      ⟨.checkLsm, false, T400⟩ := by
  intro c
  induction c with
  | zero =>
    intro seen
    show initIter i 0 (serdesInitStep ⟨.resetPcs, seen, 0⟩ i) = _
    simp [initIter, serdesInitStep, waitTimerStep]
  | succ c ih =>
    intro seen
    show initIter i (c + 1) (serdesInitStep ⟨.resetPcs, seen, c + 1⟩ i) = _
    have hstep : serdesInitStep ⟨.resetPcs, seen, c + 1⟩ i =
        ⟨.resetPcs, seen, c⟩ := by
      simp [serdesInitStep, waitTimerStep, h1, h2]
    rw [hstep]
    exact ih seen

/-- CHECK-LSM countdown with the link-state-machine indicator held high:
after `c + 1` ticks the sequencer is in READY with the latch set. -/
theorem chk_countdown_lsm_high (i : InitIn) (h : i.rxLsm = true) :
    ∀ c seen, initIter i (c + 1) ⟨.checkLsm, seen, c⟩ =
      ⟨.ready, true, 0⟩ := by
  intro c
  induction c with
  | zero =>
    intro seen
    show initIter i 0 (serdesInitStep ⟨.checkLsm, seen, 0⟩ i) = _
    simp [initIter, serdesInitStep, waitTimerStep, h]
  | succ c ih =>
    intro seen
    show initIter i (c + 1) (serdesInitStep ⟨.checkLsm, seen, c + 1⟩ i) = _
    have hstep : serdesInitStep ⟨.checkLsm, seen, c + 1⟩ i =
        ⟨.checkLsm, true, c⟩ := by
      simp [serdesInitStep, waitTimerStep, h]
    rw [hstep]
    exact ih true

/-- CHECK-LSM countdown with the indicator held low and the latch clear:
after `c + 1` ticks the sequencer has returned to IDLE. -/
theorem chk_countdown_lsm_low (i : InitIn) (h : i.rxLsm = false) :
    ∀ c, initIter i (c + 1) ⟨.checkLsm, false, c⟩ =
      ⟨.idle, false, 0⟩ := by
  intro c
  induction c with
  | zero =>
    show initIter i 0 (serdesInitStep ⟨.checkLsm, false, 0⟩ i) = _
    simp [initIter, serdesInitStep, waitTimerStep, h]
  | succ c ih =>
    show initIter i (c + 1) (serdesInitStep ⟨.checkLsm, false, c + 1⟩ i) = _
    have hstep : serdesInitStep ⟨.checkLsm, false, c + 1⟩ i =
        ⟨.checkLsm, false, c⟩ := by
      simp [serdesInitStep, waitTimerStep, h]
    rw [hstep]
    exact ih

/-- Per-tick characterization of RESET-PCS: on the completion tick
(`count = 0`) the sequencer moves to CHECK-LSM with the latch cleared and
the timer reloaded; otherwise it stays, the timer reloading to its full
value on any tick with RX loss-of-lock or loss-of-signal asserted and
counting down by one otherwise. -/
theorem pcs_step_eq (seen : Bool) (c : Nat) (i : InitIn) :
    serdesInitStep ⟨.resetPcs, seen, c⟩ i =
      if c = 0 then ⟨.checkLsm, false, T400⟩
      else ⟨.resetPcs, seen, if i.rxLol || i.rxLos then T400 else c - 1⟩ := by
  by_cases hc : c = 0
  · subst hc
    simp [serdesInitStep, waitTimerStep]
  · cases hl : i.rxLol <;> cases hs : i.rxLos <;>
      simp [serdesInitStep, waitTimerStep, hc, hl, hs]

/-- `pcsRun` is a faithful account of the sequencer while it remains in
RESET-PCS: a `some` result matches folding the real step function. -/
theorem pcsRun_sound : ∀ (is : List InitIn) (c c' : Nat) (seen : Bool),
    pcsRun c is = some c' →
    listRun ⟨.resetPcs, seen, c⟩ is = ⟨.resetPcs, seen, c'⟩ := by
  intro is
  induction is with
  | nil =>
    intro c c' seen h
    simp [pcsRun] at h
    subst h
    rfl
  | cons i is ih =>
    intro c c' seen h
    rw [pcsRun] at h
    by_cases hc : c = 0
    · simp [hc] at h
    · rw [if_neg hc] at h
      show listRun (serdesInitStep ⟨.resetPcs, seen, c⟩ i) is = _
      rw [pcs_step_eq, if_neg hc]
      by_cases hd : (i.rxLol || i.rxLos) = true
      · rw [if_pos hd] at h ⊢
        exact ih T400 c' seen h
      · rw [if_neg hd] at h ⊢
        exact ih (c - 1) c' seen h

/-- If the RESET-PCS timer run completes (exits), then either the input
list contains a window of `T400` consecutive clean ticks, or the whole
countdown `c` was served by a clean prefix. -/
theorem pcsRun_exit_window : ∀ (is : List InitIn) (c : Nat),
    pcsRun c is = none →
      (∃ j, j + T400 ≤ is.length ∧
        ∀ x ∈ (is.drop j).take T400, (x.rxLol || x.rxLos) = false) ∨
      (c ≤ is.length ∧ ∀ x ∈ is.take c, (x.rxLol || x.rxLos) = false) := by
  intro is
  induction is with
  | nil =>
    intro c h
    rw [pcsRun] at h
    exact absurd h (by simp)
  | cons i is ih =>
    intro c h
    rw [pcsRun] at h
    by_cases hc : c = 0
    · right
      subst hc
      exact ⟨by simp, by simp⟩
    · rw [if_neg hc] at h
      by_cases hd : (i.rxLol || i.rxLos) = true
      · rw [if_pos hd] at h
        rcases ih T400 h with ⟨j, hj, hcl⟩ | ⟨hlen, hcl⟩
        · left
          refine ⟨j + 1, by simp; omega, ?_⟩
          simpa [List.drop_succ_cons] using hcl
        · left
          refine ⟨1, by simp; omega, ?_⟩
          have hdrop : (i :: is).drop 1 = is := rfl
          rw [hdrop]
          exact hcl
      · have hd' : (i.rxLol || i.rxLos) = false := by
          cases hb : (i.rxLol || i.rxLos)
          · rfl
          · exact absurd hb hd
        rw [if_neg hd] at h
        rcases ih (c - 1) h with ⟨j, hj, hcl⟩ | ⟨hlen, hcl⟩
        · left
          refine ⟨j + 1, by simp; omega, ?_⟩
          simpa [List.drop_succ_cons] using hcl
        · right
          obtain ⟨c0, rfl⟩ : ∃ c0, c = c0 + 1 := ⟨c - 1, by omega⟩
          refine ⟨by simp; omega, ?_⟩
          rw [List.take_succ_cons]
          intro x hx
          rcases List.mem_cons.mp hx with rfl | hx'
          · exact hd'
          · exact hcl x (by simpa using hx')

/-- A fully clean run of `c + 1` ticks completes the RESET-PCS timer. -/
theorem pcsRun_replicate_clean :
    ∀ c, pcsRun c (List.replicate (c + 1) goodIn) = none := by
  intro c
  induction c with
  | zero => rfl
  | succ c ih =>
    show pcsRun (c + 1) (goodIn :: List.replicate (c + 1) goodIn) = none
    rw [pcsRun]
    simp [goodIn]
    exact ih

/-- **C9.** During RESET-PCS the ~400,000-tick timer counts down only on
ticks where both synchronized RX loss-of-lock and RX loss-of-signal are
deasserted; on any tick where either is asserted it reloads to its full
initial value rather than pausing (first conjunct, a complete per-tick
characterization).  The `pcsRun` view of the timer is faithful to the
sequencer (second conjunct), and leaving RESET-PCS requires a full timer
duration of consecutive clean ticks: if the timer run completes, the
input history contains `T400` consecutive clean ticks (third
conjunct). -/
theorem c9_resetpcs_timer :
    (∀ seen c i, serdesInitStep ⟨.resetPcs, seen, c⟩ i =
        if c = 0 then ⟨.checkLsm, false, T400⟩
        else ⟨.resetPcs, seen, if i.rxLol || i.rxLos then T400 else c - 1⟩) ∧
    (∀ is c c' seen, pcsRun c is = some c' →
        listRun ⟨.resetPcs, seen, c⟩ is = ⟨.resetPcs, seen, c'⟩) ∧
    (∀ is, pcsRun T400 is = none →
        ∃ j, j + T400 ≤ is.length ∧
          ∀ x ∈ (is.drop j).take T400, (x.rxLol || x.rxLos) = false) := by
  refine ⟨pcs_step_eq, pcsRun_sound, ?_⟩
  intro is h
  rcases pcsRun_exit_window is T400 h with ⟨j, hj, hcl⟩ | ⟨hlen, hcl⟩
  · exact ⟨j, hj, hcl⟩
  · exact ⟨0, by simpa using hlen, by simpa using hcl⟩

/-- **C9 (witness).** The soundness conjunct applied at a concrete
two-tick countdown, and the clean-window conjunct applied to a fully
clean run of `T400 + 1` ticks. -/
theorem c9_resetpcs_timer_witness :
    (pcsRun 2 [goodIn] = some 1 ∧
      listRun ⟨.resetPcs, false, 2⟩ [goodIn] = ⟨.resetPcs, false, 1⟩) ∧
    (pcsRun T400 (List.replicate (T400 + 1) goodIn) = none ∧
      ∃ j, j + T400 ≤ (List.replicate (T400 + 1) goodIn).length ∧
        ∀ x ∈ ((List.replicate (T400 + 1) goodIn).drop j).take T400,
          (x.rxLol || x.rxLos) = false) :=
  ⟨⟨by decide, c9_resetpcs_timer.2.1 [goodIn] 2 1 false (by decide)⟩,
   ⟨pcsRun_replicate_clean T400,
    c9_resetpcs_timer.2.2 _ (pcsRun_replicate_clean T400)⟩⟩

/-- **C3.** (1) From reset (Idle), with TX lock acquired, RX loss-of-lock
and loss-of-signal continuously deasserted and the RX link-state-machine
indicator persistently asserted, the sequencer reaches Ready — the exact
latency is `2·T400 + 4` ticks (one tick each in Idle and Reset-All, then a
full `T400 + 1`-tick timer run in Reset-PCS and another in Check-LSM).
(2) From Ready, the next state is Idle exactly when TX-loss-of-lock,
RX-loss-of-lock or RX-loss-of-signal is asserted that tick (so a one-tick
assertion returns it to Idle on the next tick).  (3) From every state
there is an input sequence leading back to Idle: no terminal failure
state. -/
theorem c3_lock_sequencer_progress :
    (initIter goodIn (2 * T400 + 4) serdesInitReset).fsm = .ready ∧
    (∀ seen c tx lol los lsm,
      (serdesInitStep ⟨.ready, seen, c⟩ ⟨tx, lol, los, lsm⟩).fsm =
        if tx || lol || los then .idle else .ready) ∧
    (∀ s : InitState, ∃ n, (initIter recIn n s).fsm = .idle) := by
  refine ⟨?_, ?_, ?_⟩
  · have hsplit : 2 * T400 + 4 = 2 + ((T400 + 1) + (T400 + 1)) := by omega
    have h2 : initIter goodIn 2 serdesInitReset = ⟨.resetPcs, false, T400⟩ := by
      show serdesInitStep (serdesInitStep serdesInitReset goodIn) goodIn = _
      simp [serdesInitStep, serdesInitReset, waitTimerStep, goodIn, T400]
    rw [hsplit, initIter_add, h2, initIter_add,
      pcs_countdown goodIn rfl rfl T400 false,
      chk_countdown_lsm_high goodIn rfl T400 false]
  · intro seen c tx lol los lsm
    rfl
  · intro s
    rcases s with ⟨fsm, seen, c⟩
    cases fsm with
    | idle => exact ⟨0, rfl⟩
    | resetAll =>
      refine ⟨1 + ((T400 + 1) + (T400 + 1)), ?_⟩
      have s1 : initIter recIn 1 ⟨.resetAll, seen, c⟩ =
          ⟨.resetPcs, seen, T400⟩ := by
        show serdesInitStep ⟨.resetAll, seen, c⟩ recIn = _
        simp [serdesInitStep, waitTimerStep]
      rw [initIter_add, s1, initIter_add,
        pcs_countdown recIn rfl rfl T400 seen,
        chk_countdown_lsm_low recIn rfl T400]
    | resetPcs =>
      refine ⟨(c + 1) + (T400 + 1), ?_⟩
      rw [initIter_add, pcs_countdown recIn rfl rfl c seen,
        chk_countdown_lsm_low recIn rfl T400]
    | checkLsm =>
      cases seen with
      | false => exact ⟨c + 1, by rw [chk_countdown_lsm_low recIn rfl c]⟩
      | true =>
        refine ⟨1, ?_⟩
        show (serdesInitStep ⟨.checkLsm, true, c⟩ recIn).fsm = .idle
        by_cases hc : c = 0 <;> simp [serdesInitStep, recIn, hc]
    | ready =>
      refine ⟨1, ?_⟩
      show (serdesInitStep ⟨.ready, seen, c⟩ recIn).fsm = .idle
      rfl

/-! ### RX SKP Remover lemmas -/

/-- A word's surviving fragment holds at most 4 symbols. -/
theorem frag_length_le (w : Word) : (frag w).length ≤ 4 := by
  have h := List.length_filter_le (fun s => !isSkpSym s) w.lanes
  simpa [Word.lanes] using h

/-- **C4 (counterexample).** The held-bytes count does not stay within
0–7: starting empty, accepting a word with one SKP lane (3 surviving
bytes) and then two full words while the consumer is stalled drives
`sr_bytes` to 11 — input is still accepted at 7 held bytes and adds up to
4 more. -/
theorem c4_remover_overflow_counterexample :
    (remRun remInit
      [(some ⟨⟨SKP, true⟩, ⟨0, false⟩, ⟨0, false⟩, ⟨0, false⟩, false, false⟩,
        false),
       (some ⟨⟨0, false⟩, ⟨0, false⟩, ⟨0, false⟩, ⟨0, false⟩, false, false⟩,
        false),
       (some ⟨⟨0, false⟩, ⟨0, false⟩, ⟨0, false⟩, ⟨0, false⟩, false, false⟩,
        false)]).bytes = 11 ∧
    ¬ (remRun remInit
      [(some ⟨⟨SKP, true⟩, ⟨0, false⟩, ⟨0, false⟩, ⟨0, false⟩, false, false⟩,
        false),
       (some ⟨⟨0, false⟩, ⟨0, false⟩, ⟨0, false⟩, ⟨0, false⟩, false, false⟩,
        false),
       (some ⟨⟨0, false⟩, ⟨0, false⟩, ⟨0, false⟩, ⟨0, false⟩, false, false⟩,
        false)]).bytes ≤ 7 := by
  decide

/-- **C4 (amended).** (1) The input handshake is accepted exactly when
held-bytes ≤ 7 and the output is offered exactly when held-bytes ≥ 4.
(2) Held-bytes stays within 0–11 in general (with a stalled consumer it
can exceed 7, since a word may still be accepted at 7).  (3) Per tick,
held-bytes gains the accepted fragment size and loses exactly 4 on each
successful output transfer.  (4) When the consumer accepts every offered
word, held-bytes stays within 0–7, the register keeps its 8 slots, the
held-symbol queue evolves with no loss — the accepted non-compensation
symbols are appended and each output transfer removes precisely the four
oldest symbols — and each transferred word carries the four oldest held
symbols (with cleared framing bits). -/
theorem c4_skp_remover_invariants :
    (∀ s : RemState, (remSinkReady s = true ↔ s.bytes ≤ 7) ∧
      (remSourceValid s = true ↔ 4 ≤ s.bytes)) ∧
    (∀ (s : RemState) inp r, s.bytes ≤ 11 → (remStep s inp r).1.bytes ≤ 11) ∧
    (∀ (s : RemState) inp r, (remStep s inp r).1.bytes =
      s.bytes + remAccepted s inp -
        (if remSourceValid s && r then 4 else 0)) ∧
    (∀ (s : RemState) inp, s.bytes ≤ 7 → s.sr.length = 8 →
      (remStep s inp true).1.bytes ≤ 7 ∧
      (remStep s inp true).1.sr.length = 8 ∧
      validQ (remStep s inp true).1 =
        (validQ s ++ remAcceptedFrag s inp).drop
          (if remSourceValid s then 4 else 0) ∧
      (remStep s inp true).2 =
        (if remSourceValid s then some (mkWord ((validQ s).take 4))
         else none)) := by
  refine ⟨?_, ?_, ?_, ?_⟩
  · intro s
    constructor <;> simp [remSinkReady, remSourceValid]
  · intro s inp r hb
    cases inp with
    | none => simp [remStep]; omega
    | some w =>
      have hf := frag_length_le w
      by_cases hr : remSinkReady s
      · have hb7 : s.bytes ≤ 7 := by simpa [remSinkReady] using hr
        simp [remStep, hr]
        split <;> omega
      · simp [remStep, hr]
        omega
  · intro s inp r
    cases inp with
    | none => simp [remStep, remAccepted]
    | some w =>
      by_cases hr : remSinkReady s
      · simp [remStep, remAccepted, hr]
      · simp [remStep, remAccepted, hr]
  · intro s inp hb hlen
    have hready : remSinkReady s = true := by simp [remSinkReady]; omega
    cases hv : remSourceValid s with
    | false =>
      have hblt : s.bytes < 4 := by
        have := hv
        simp [remSourceValid] at this
        omega
      cases inp with
      | none =>
        refine ⟨by simp [remStep, hv]; omega, by simp [remStep, hv, hlen], ?_, ?_⟩
        · simp [remStep, hv, validQ, remAcceptedFrag]
        · simp [remStep, hv]
      | some w =>
        have hf := frag_length_le w
        by_cases hn : (frag w).length = 0
        · have hfe : frag w = [] := List.length_eq_zero.mp hn
          refine ⟨by simp [remStep, hv, hready, hn]; omega,
                  by simp [remStep, hv, hready, hn, hlen], ?_, ?_⟩
          · simp [remStep, hv, hready, hn, validQ, remAcceptedFrag, hfe]
          · simp [remStep, hv, hready]
        · refine ⟨by simp [remStep, hv, hready, hn]; omega,
                  ?_, ?_, by simp [remStep, hv, hready]⟩
          · simp [remStep, hv, hready, hn, hlen]
            omega
          · simp [remStep, hv, hready, hn, validQ, remAcceptedFrag]
            have hq : 8 - (s.bytes + (frag w).length) ≤
                (s.sr.drop (frag w).length).length := by
              simp [hlen]
              omega
            rw [List.drop_append_of_le_length hq, List.drop_drop]
            have he : (frag w).length + (8 - (s.bytes + (frag w).length)) =
                8 - s.bytes := by omega
            rw [he]
    | true =>
      have hb4 : 4 ≤ s.bytes := by
        have := hv
        simp [remSourceValid] at this
        omega
      have hout : remOut s = (s.sr.drop (8 - s.bytes)).take 4 := by
        simp [remOut]
        omega
      cases inp with
      | none =>
        refine ⟨by simp [remStep, hv]; omega, by simp [remStep, hv, hlen],
                ?_, ?_⟩
        · simp [remStep, hv, validQ, remAcceptedFrag, List.drop_drop]
          congr 1
          omega
        · simp [remStep, hv, hout, validQ]
      | some w =>
        have hf := frag_length_le w
        by_cases hn : (frag w).length = 0
        · have hfe : frag w = [] := List.length_eq_zero.mp hn
          refine ⟨by simp [remStep, hv, hready, hn]; omega,
                  by simp [remStep, hv, hready, hn, hlen], ?_, ?_⟩
          · simp [remStep, hv, hready, hn, validQ, remAcceptedFrag, hfe,
              List.drop_drop]
            congr 1
            omega
          · simp [remStep, hv, hready, hout, validQ]
        · refine ⟨by simp [remStep, hv, hready, hn]; omega, ?_, ?_,
                  by simp [remStep, hv, hready, hout, validQ]⟩
          · simp [remStep, hv, hready, hn, hlen]
            omega
          · simp [remStep, hv, hready, hn, validQ, remAcceptedFrag]
            have hq : 8 - (s.bytes + (frag w).length - 4) ≤
                (s.sr.drop (frag w).length).length := by
              simp [hlen]
              omega
            rw [List.drop_append_of_le_length hq, List.drop_drop]
            have hq2 : 4 ≤ (s.sr.drop (8 - s.bytes)).length := by
              simp [hlen]
              omega
            rw [List.drop_append_of_le_length hq2, List.drop_drop]
            have he : (frag w).length + (8 - (s.bytes + (frag w).length - 4)) =
                4 + (8 - s.bytes) := by omega
            rw [he, Nat.add_comm 4 (8 - s.bytes)]

/-- **C4 (witness).** The bounded-fill and no-loss conjuncts applied at
the reset state with an idle sink. -/
theorem c4_skp_remover_invariants_witness :
    (remInit.bytes ≤ 11 ∧ (remStep remInit none false).1.bytes ≤ 11) ∧
    ((remInit.bytes ≤ 7 ∧ remInit.sr.length = 8) ∧
      ((remStep remInit none true).1.bytes ≤ 7 ∧
       (remStep remInit none true).1.sr.length = 8 ∧
       validQ (remStep remInit none true).1 =
         (validQ remInit ++ remAcceptedFrag remInit none).drop
           (if remSourceValid remInit then 4 else 0) ∧
       (remStep remInit none true).2 =
         (if remSourceValid remInit then
            some (mkWord ((validQ remInit).take 4))
          else none))) :=
  ⟨⟨by decide, c4_skp_remover_invariants.2.1 remInit none false (by decide)⟩,
   ⟨⟨by decide, by decide⟩,
    c4_skp_remover_invariants.2.2.2 remInit none (by decide) (by decide)⟩⟩

/-! ### TX inserter / round-trip lemmas -/

/-- The SKP Ordered Set word is filtered out completely by the remover. -/
theorem frag_skpWord : frag skpWord = [] := by decide

/-- A word with no SKP symbol passes the lane filter unchanged. -/
theorem frag_of_noSkp (w : Word) (h : wordHasNoSkp w = true) :
    frag w = w.lanes := by
  apply List.filter_eq_self.mpr
  intro a ha
  exact (List.all_eq_true.mp h) a ha

/-- Repacking a word's lanes yields the word with cleared framing bits. -/
theorem mkWord_lanes (w : Word) :
    mkWord w.lanes = { w with first := false, last := false } := rfl

/-- Remover harness: starting from an empty-or-one-word state, feeding
words that are each either untouched by the lane filter or entirely
filtered out produces the pending word followed by the surviving words
(with framing cleared), in order. -/
theorem remCollect_spec : ∀ (ws : List Word) (s : RemState),
    (s.bytes = 0 ∨ s.bytes = 4) → s.sr.length = 8 →
    (∀ w ∈ ws, frag w = w.lanes ∨ frag w = []) →
    (remRunCollect s ws).2 ++ remDrain (remRunCollect s ws).1 =
      pend s ++ (ws.filter (fun w => !(frag w).isEmpty)).map
        (fun w => mkWord w.lanes) := by
  intro ws
  induction ws with
  | nil =>
    intro s hb hlen _
    rcases hb with hb | hb
    · simp [remRunCollect, remDrain, remStep, remSourceValid, pend, hb]
    · simp [remRunCollect, remDrain, remStep, remSourceValid, pend, hb]
  | cons w ws ih =>
    intro s hb hlen hws
    have hwhead := hws w (List.mem_cons_self w ws)
    have hwtail : ∀ x ∈ ws, frag x = x.lanes ∨ frag x = [] :=
      fun x hx => hws x (List.mem_cons_of_mem w hx)
    have hready : remSinkReady s = true := by
      rcases hb with hb | hb <;> simp [remSinkReady, hb]
    rcases hwhead with hw | hw
    · -- surviving data word: four symbols shift in
      have hlanes : w.lanes.length = 4 := rfl
      have hflen : (frag w).length = 4 := by rw [hw, hlanes]
      have hfne : ¬ (frag w).length = 0 := by omega
      have hstep : remStep s (some w) true =
          (⟨s.sr.drop 4 ++ w.lanes, s.bytes + 4 -
             (if remSourceValid s then 4 else 0)⟩,
           if remSourceValid s then some (mkWord (remOut s)) else none) := by
        simp [remStep, hready, hfne, hw, hlanes, hflen]
      have hlen' : (s.sr.drop 4 ++ w.lanes).length = 8 := by
        simp [hlanes, hlen]
      have hout4 : ((s.sr.drop 4 ++ w.lanes).drop 4).take 4 = w.lanes := by
        have h4 : (s.sr.drop 4).length = 4 := by simp [hlen]
        have hdrop : (s.sr.drop 4 ++ w.lanes).drop 4 = w.lanes := by
          have hl := List.drop_left (s.sr.drop 4) w.lanes
          rwa [h4] at hl
        rw [hdrop]
        have ht := List.take_length w.lanes
        rwa [hlanes] at ht
      have ihh := ih ⟨s.sr.drop 4 ++ w.lanes, 4⟩ (Or.inr rfl) hlen' hwtail
      have hpend' : pend ⟨s.sr.drop 4 ++ w.lanes, 4⟩ = [mkWord w.lanes] := by
        simp [pend, remOut, hout4]
      have hfilter : (w :: ws).filter (fun w => !(frag w).isEmpty) =
          w :: ws.filter (fun w => !(frag w).isEmpty) := by
        rw [List.filter_cons_of_pos]
        simp [hw, Word.lanes]
      rcases hb with hb | hb
      · -- empty register: the word becomes pending, nothing emitted
        have hsv : remSourceValid s = false := by simp [remSourceValid, hb]
        have hstep' : remStep s (some w) true =
            (⟨s.sr.drop 4 ++ w.lanes, 4⟩, none) := by
          rw [hstep, hsv]
          simp [hb]
        have hpend : pend s = [] := by simp [pend, hb]
        rw [remRunCollect, hstep']
        simp only [Option.toList_some, Option.toList_none, List.nil_append,
          List.cons_append, List.append_assoc]
        rw [ihh, hpend', hpend, hfilter]
        simp
      · -- one pending word: it is emitted, the new word becomes pending
        have hsv : remSourceValid s = true := by simp [remSourceValid, hb]
        have hstep' : remStep s (some w) true =
            (⟨s.sr.drop 4 ++ w.lanes, 4⟩, some (mkWord (remOut s))) := by
          rw [hstep, hsv]
          simp [hb]
        have hpend : pend s = [mkWord (remOut s)] := by simp [pend, hb]
        rw [remRunCollect, hstep']
        simp only [Option.toList_some, Option.toList_none, List.nil_append,
          List.cons_append, List.append_assoc]
        rw [ihh, hpend', hpend, hfilter]
        simp
    · -- fully filtered word (SKP Ordered Set): nothing shifts in
      have hflen : (frag w).length = 0 := by rw [hw]; rfl
      have hstep : remStep s (some w) true =
          (⟨s.sr, s.bytes - (if remSourceValid s then 4 else 0)⟩,
           if remSourceValid s then some (mkWord (remOut s)) else none) := by
        simp [remStep, hready, hflen]
      have ihh := ih ⟨s.sr, 0⟩ (Or.inl rfl) hlen hwtail
      have hpend0 : pend (⟨s.sr, 0⟩ : RemState) = [] := by simp [pend]
      have hfilter : (w :: ws).filter (fun w => !(frag w).isEmpty) =
          ws.filter (fun w => !(frag w).isEmpty) := by
        rw [List.filter_cons_of_neg]
        simp [hw]
      rcases hb with hb | hb
      · have hsv : remSourceValid s = false := by simp [remSourceValid, hb]
        have hstep' : remStep s (some w) true = (⟨s.sr, 0⟩, none) := by
          rw [hstep, hsv]
          simp [hb]
        have hpend : pend s = [] := by simp [pend, hb]
        rw [remRunCollect, hstep']
        simp only [Option.toList_some, Option.toList_none, List.nil_append,
          List.cons_append, List.append_assoc]
        rw [ihh, hpend0, hpend, hfilter]
      · have hsv : remSourceValid s = true := by simp [remSourceValid, hb]
        have hstep' : remStep s (some w) true =
            (⟨s.sr, 0⟩, some (mkWord (remOut s))) := by
          rw [hstep, hsv]
          simp [hb]
        have hpend : pend s = [mkWord (remOut s)] := by simp [pend, hb]
        rw [remRunCollect, hstep']
        simp only [Option.toList_some, Option.toList_none, List.nil_append,
          List.cons_append, List.append_assoc]
        rw [ihh, hpend0, hpend, hfilter]
        simp

/-- Every word in the inserter's output is either the SKP Ordered Set or
one of the offered input words. -/
theorem insRun_mem : ∀ (s : InsState) (ws : List Word),
    ∀ w' ∈ insRun s ws, w' = skpWord ∨ w' ∈ ws := by
  intro s ws
  induction s, ws using insRun.induct with
  | case1 s => intro w' hw'; simp [insRun] at hw'
  | case2 s w ws h ih =>
    intro w' hw'
    rw [insRun, dif_pos h] at hw'
    rcases List.mem_cons.mp hw' with rfl | hw'
    · exact Or.inl rfl
    · exact ih w' hw'
  | case3 s w ws h ih =>
    intro w' hw'
    rw [insRun, dif_neg h] at hw'
    rcases List.mem_cons.mp hw' with rfl | hw'
    · exact Or.inr (List.mem_cons_self _ _)
    · rcases ih w' hw' with h' | h'
      · exact Or.inl h'
      · exact Or.inr (List.mem_cons_of_mem _ h')

/-- Filtering the inserter's output down to words that survive the lane
filter recovers exactly the input sequence: SKP words vanish, data words
(without SKP symbols) pass in order. -/
theorem insRun_filter : ∀ (s : InsState) (ws : List Word),
    (∀ w ∈ ws, wordHasNoSkp w = true) →
    (insRun s ws).filter (fun w => !(frag w).isEmpty) = ws := by
  intro s ws
  induction s, ws using insRun.induct with
  | case1 s => intro _; simp [insRun]
  | case2 s w ws h ih =>
    intro hns
    rw [insRun, dif_pos h]
    rw [List.filter_cons_of_neg (by simp [frag_skpWord])]
    exact ih hns
  | case3 s w ws h ih =>
    intro hns
    rw [insRun, dif_neg h]
    have hw := hns w (List.mem_cons_self w ws)
    rw [List.filter_cons_of_pos (by simp [frag_of_noSkp w hw, Word.lanes])]
    rw [ih (fun x hx => hns x (List.mem_cons_of_mem w hx))]

/-- Inside the inserter, `skip_grant` tracks the negation of the
packet-open state of the words consumed so far; consequently a SKP word
only ever appears in the output at a position where the packet-open fold
over the preceding output words is false (outside an open packet). -/
theorem insRun_no_skip_in_packet : ∀ (s : InsState) (ws : List Word),
    (∀ w ∈ ws, wordHasNoSkp w = true) →
    ∀ (o : Bool), s.skipGrant = !o →
    ∀ i, (insRun s ws)[i]? = some skpWord →
      ((insRun s ws).take i).foldl openAfter o = false := by
  intro s ws
  induction s, ws using insRun.induct with
  | case1 s =>
    intro _ o ho i heq
    simp [insRun] at heq
  | case2 s w ws h ih =>
    intro hns o ho i heq
    have hgrant' : (insStep s (some w) true).1.skipGrant = s.skipGrant := by
      simp [insStep, h]
    rw [insRun, dif_pos h] at heq ⊢
    cases i with
    | zero =>
      have hg : s.skipGrant = true := by
        have h' := h
        simp [insEmitsSkip] at h'
        exact h'.1
      rw [hg] at ho
      cases o
      · simp
      · simp at ho
    | succ i =>
      have heq' : (insRun (insStep s (some w) true).1 (w :: ws))[i]? =
          some skpWord := by simpa using heq
      have hrec := ih hns o (by rw [hgrant', ho]) i heq'
      have hskp : openAfter o skpWord = o := rfl
      simpa [hskp] using hrec
  | case3 s w ws h ih =>
    intro hns o ho i heq
    have hw := hns w (List.mem_cons_self w ws)
    have hns' : ∀ x ∈ ws, wordHasNoSkp x = true :=
      fun x hx => hns x (List.mem_cons_of_mem w hx)
    rw [insRun, dif_neg h] at heq ⊢
    cases i with
    | zero =>
      exfalso
      have hws : w = skpWord := by simpa using heq
      rw [hws] at hw
      exact absurd hw (by decide)
    | succ i =>
      have hgrant' : (insStep s (some w) true).1.skipGrant =
          !(openAfter o w) := by
        simp [insStep, h, openAfter]
        by_cases hl : w.last
        · simp [hl]
        · by_cases hf : w.first
          · simp [hl, hf]
          · simp [hl, hf, ho]
      have heq' : (insRun (insStep s (some w) true).1 ws)[i]? =
          some skpWord := by simpa using heq
      have hrec := ih hns' (openAfter o w) hgrant' i heq'
      simpa using hrec

/-- **C1 (counterexample).** The round trip does not preserve the
`first`/`last` framing bits: a single framed word (a one-word packet with
`first = last = 1` and no SKP symbols) comes back with both framing bits
cleared, because the remover never drives `source.first`/`source.last`. -/
theorem c1_roundtrip_counterexample :
    remProcess (insRun insInit [exWordFramed]) ≠ [exWordFramed] := by
  have h1 : insRun insInit [exWordFramed] = [exWordFramed] := by
    rw [insRun, dif_neg (by decide)]
    have h : (insStep insInit (some exWordFramed) true).1 =
        ⟨1, true, false, 0⟩ := by decide
    rw [h, insRun]
  rw [h1]
  decide

/-- **C1 (amended).** For every finite word sequence containing no SKP
symbol, feeding it through the TX SKP Inserter and then the RX SKP
Remover (always-ready consumer) reproduces the original sequence's data
bytes and control bits exactly and in order, but with the `first`/`last`
framing bits cleared (the remover does not forward framing).  Moreover,
whenever the inserter's `skip_grant` mirrors the negated packet-open
state (as it does from reset, where `skip_grant = 1` and no packet is
open), no SKP word it emits appears strictly inside an open packet: at
every output position holding the SKP Ordered Set, the packet-open fold
over the preceding output words is false. -/
theorem c1_skp_roundtrip :
    (∀ ws : List Word, (∀ w ∈ ws, wordHasNoSkp w = true) →
      remProcess (insRun insInit ws) =
        ws.map (fun w => { w with first := false, last := false })) ∧
    (∀ (s : InsState) (ws : List Word),
      (∀ w ∈ ws, wordHasNoSkp w = true) →
      ∀ (o : Bool), s.skipGrant = !o →
      ∀ i, (insRun s ws)[i]? = some skpWord →
        ((insRun s ws).take i).foldl openAfter o = false) := by
  constructor
  · intro ws hns
    unfold remProcess
    have hprops : ∀ w' ∈ insRun insInit ws,
        frag w' = w'.lanes ∨ frag w' = [] := by
      intro w' hw'
      rcases insRun_mem insInit ws w' hw' with rfl | hmem
      · exact Or.inr frag_skpWord
      · exact Or.inl (frag_of_noSkp w' (hns w' hmem))
    rw [remCollect_spec (insRun insInit ws) remInit (Or.inl rfl) (by decide)
      hprops]
    rw [insRun_filter insInit ws hns]
    have hpend : pend remInit = [] := by decide
    rw [hpend]
    simp only [List.nil_append]
    simp only [mkWord_lanes]
  · exact insRun_no_skip_in_packet

/-- A two-tick inserter evaluation used by the C1 witness: with one
pending SKP request and an open grant, the inserter emits the SKP word
and then the offered data word. -/
theorem insRun_skip_example :
    insRun ⟨0, true, false, 1⟩ [exWordData] = [skpWord, exWordData] := by
  rw [insRun, dif_pos (by decide)]
  have h1 : (insStep ⟨0, true, false, 1⟩ (some exWordData) true).1 =
      ⟨0, true, false, 0⟩ := by decide
  rw [h1, insRun, dif_neg (by decide)]
  have h2 : (insStep ⟨0, true, false, 0⟩ (some exWordData) true).1 =
      ⟨1, true, false, 0⟩ := by decide
  rw [h2, insRun]

/-- **C1 (witness).** The round-trip conjunct applied to a one-word
sequence, and the no-SKP-inside-packet conjunct applied to a state with
one pending SKP request, whose output starts with the SKP word. -/
theorem c1_skp_roundtrip_witness :
    ((∀ w ∈ [exWordData], wordHasNoSkp w = true) ∧
      remProcess (insRun insInit [exWordData]) =
        [exWordData].map (fun w => { w with first := false, last := false })) ∧
    ((∀ w ∈ [exWordData], wordHasNoSkp w = true) ∧
      (⟨0, true, false, 1⟩ : InsState).skipGrant = !false ∧
      (insRun ⟨0, true, false, 1⟩ [exWordData])[0]? = some skpWord ∧
      ((insRun ⟨0, true, false, 1⟩ [exWordData]).take 0).foldl
        openAfter false = false) :=
  ⟨⟨by decide, c1_skp_roundtrip.1 [exWordData] (by decide)⟩,
   ⟨by decide, rfl, by rw [insRun_skip_example]; rfl,
    c1_skp_roundtrip.2 ⟨0, true, false, 1⟩ [exWordData] (by decide) false rfl 0
      (by rw [insRun_skip_example]; rfl)⟩⟩

/-! ### RX Word Aligner lemmas -/

/-- An output transfer happens exactly when the input offers a word, the
lookahead buffer is full and the consumer is ready. -/
theorem alignStep_emit_iff (s : AlignState) (inp : Option Word)
    (r e : Bool) :
    (alignStep s inp r e).2.isSome = (inp.isSome && s.bufValid && r) := by
  cases inp with
  | none => simp [alignStep]
  | some w => cases hb : s.bufValid <;> cases hr : r <;> simp [alignStep, hb, hr]

/-- One-tick unfolding of the counting harness. -/
theorem alignRun_cons (s : AlignState) (inp : Option Word) (r e : Bool)
    (ts : List (Option Word × Bool × Bool)) :
    alignRun s ((inp, r, e) :: ts) =
      ((alignRun (alignStep s inp r e).1 ts).1,
       (if inp.isSome && (!s.bufValid || (inp.isSome && r)) then 1 else 0) +
         (alignRun (alignStep s inp r e).1 ts).2.1,
       (if (alignStep s inp r e).2.isSome then 1 else 0) +
         (alignRun (alignStep s inp r e).1 ts).2.2) := rfl

/-- Per tick, emissions plus the resulting buffer fill never exceed
acceptances plus the prior buffer fill. -/
theorem alignStep_tick_bound (s : AlignState) (inp : Option Word)
    (r e : Bool) :
    (if (alignStep s inp r e).2.isSome then 1 else 0) +
      (if (alignStep s inp r e).1.bufValid then 1 else 0) ≤
    (if inp.isSome && (!s.bufValid || (inp.isSome && r)) then 1 else 0) +
      (if s.bufValid then 1 else 0) := by
  cases inp with
  | none => simp [alignStep]
  | some w =>
    cases hb : s.bufValid <;> cases hr : r <;> simp [alignStep, hb, hr]

/-- Once the lookahead buffer has been filled, it stays full. -/
theorem alignRun_bufValid_mono : ∀ (ts : List (Option Word × Bool × Bool))
    (s : AlignState), s.bufValid = true →
    (alignRun s ts).1.bufValid = true := by
  intro ts
  induction ts with
  | nil => intro s h; exact h
  | cons t ts ih =>
    intro s h
    rcases t with ⟨inp, r, e⟩
    show (alignRun (alignStep s inp r e).1 ts).1.bufValid = true
    apply ih
    cases inp with
    | none => simpa [alignStep] using h
    | some w =>
      cases hr : r <;> simp [alignStep, h, hr]

/-- If any output was emitted, the buffer ends up full. -/
theorem alignRun_emit_full : ∀ (ts : List (Option Word × Bool × Bool))
    (s : AlignState), 1 ≤ (alignRun s ts).2.2 →
    (alignRun s ts).1.bufValid = true := by
  intro ts
  induction ts with
  | nil => intro s h; simp [alignRun] at h
  | cons t ts ih =>
    intro s h
    rcases t with ⟨inp, r, e⟩
    by_cases he : (alignStep s inp r e).2.isSome = true
    · rcases inp with _ | w
      · rw [alignStep_emit_iff] at he
        simp at he
      · rw [alignStep_emit_iff] at he
        simp at he
        have hstate : (alignStep s (some w) r e).1.bufValid = true := by
          simp [alignStep, he.1, he.2]
        show (alignRun (alignStep s (some w) r e).1 ts).1.bufValid = true
        exact alignRun_bufValid_mono ts _ hstate
    · have he0 : (if (alignStep s inp r e).2.isSome then 1 else 0) = 0 := by
        simp at he
        simp [he]
      rw [alignRun_cons] at h
      simp only [he0] at h
      have hrest : 1 ≤ (alignRun (alignStep s inp r e).1 ts).2.2 := by
        simpa using h
      exact ih _ hrest

/-- Output count plus final buffer fill never exceeds accepted count plus
initial buffer fill. -/
theorem alignRun_count_bound : ∀ (ts : List (Option Word × Bool × Bool))
    (s : AlignState),
    (alignRun s ts).2.2 + (if (alignRun s ts).1.bufValid then 1 else 0) ≤
      (alignRun s ts).2.1 + (if s.bufValid then 1 else 0) := by
  intro ts
  induction ts with
  | nil => intro s; simp [alignRun]
  | cons t ts ih =>
    intro s
    rcases t with ⟨inp, r, e⟩
    have hrec := ih (alignStep s inp r e).1
    have htick := alignStep_tick_bound s inp r e
    rw [alignRun_cons]
    simp only
    omega

/-- **C10.** The RX Word Aligner offers an output transfer only on ticks
where the input simultaneously offers a word and the one-word lookahead
buffer is full (first conjunct: exact characterization of the output
handshake); consequently, over any tick trace from reset it emits at most
(accepted inputs − 1) words — the last buffered word is never released
without a further input word arriving (second conjunct, with truncated
Nat subtraction). -/
theorem c10_aligner_handshake :
    (∀ (s : AlignState) (inp : Option Word) (r e : Bool),
      (alignStep s inp r e).2.isSome = (inp.isSome && s.bufValid && r)) ∧
    (∀ ts : List (Option Word × Bool × Bool),
      (alignRun alignInit ts).2.2 ≤ (alignRun alignInit ts).2.1 - 1) := by
  refine ⟨alignStep_emit_iff, ?_⟩
  intro ts
  have hbound := alignRun_count_bound ts alignInit
  have hinit : (if alignInit.bufValid = true then 1 else 0) = 0 := rfl
  rw [hinit] at hbound
  by_cases hE : 1 ≤ (alignRun alignInit ts).2.2
  · have hfull := alignRun_emit_full ts alignInit hE
    rw [hfull] at hbound
    simp at hbound
    omega
  · omega
